import Mathlib

/-!
Shallow embedding of the Folder Comparator core (src/main.py): the directory
snapshotter (`populate_table`), the missing-set computation
(`update_compare_stats` / `start_copy`), the copy worker (`CopyWorker.run`,
`CopyWorker.stop`) and the copy controller admission check
(`CopyController.start`).  Filesystem and Qt effects are abstracted into
explicit parameters: a filesystem oracle for the snapshotter, a per-file
environment for the worker, and event lists standing for the emitted Qt
signals.
-/

/-- Outcome report of one `populate_table` call: which message box (if any)
was shown.  `warn` constructors model `QMessageBox.warning`, `critPermission`
models the `QMessageBox.critical` call (a hard failure). -/
inductive Report where
  | silent
  | warnNotFound
  | warnNotDir
  | critPermission
deriving DecidableEq, Repr

/-- Abstract filesystem oracle for the snapshotter, capturing exactly the
queries `populate_table` makes: `os.path.exists`, `os.path.isdir`,
`os.access(folder, os.R_OK)`, `os.listdir`, and `os.path.isfile` on a
directory entry joined to the folder. -/
structure FS where
  pathExists : String → Bool
  isdir : String → Bool
  readable : String → Bool
  listdir : String → List String
  isfile : String → String → Bool

/-- Embedding of `populate_table` (src/main.py lines 17-42).  Returns the
ordered list of table rows (sorted directory entries filtered to regular
files) together with the message-box report; the Python function returns
`set(files)`, recovered here as the `toFinset` of the first component. -/
def populate_table (fs : FS) (folder : String) : List String × Report :=
  if folder = "" then ([], Report.silent)
  else if fs.pathExists folder = false then ([], Report.warnNotFound)
  else if fs.isdir folder = false then ([], Report.warnNotDir)
  else if fs.readable folder = false then ([], Report.critPermission)
  else
    let entries := (fs.listdir folder).mergeSort
    (entries.filter (fun f => fs.isfile folder f), Report.silent)

/-- The FileSet a snapshot yields: `set(files)` in the Python. -/
def snapshotSet (fs : FS) (folder : String) : Finset String :=
  (populate_table fs folder).1.toFinset

/-- Embedding of `get_table_items` (src/main.py lines 44-50): the set of the
table's row texts, with the table modelled as its list of rows. -/
def get_table_items (rows : List String) : Finset String :=
  rows.toFinset

/-- The missing set of `update_compare_stats` (src/main.py line 56) and of
`start_copy` (line 449): Python set difference `src_items - dst_items`. -/
def computeMissing (srcRows dstRows : List String) : Finset String :=
  get_table_items srcRows \ get_table_items dstRows

/-- State of a `CopyController` relevant to admission: the `_running` flag. -/
structure ControllerState where
  running : Bool
deriving DecidableEq, Repr

/-- Events a `CopyController.start` call itself emits (before any worker
event): the rejection `error` signals and the `started` signal. -/
inductive CtrlEvent where
  | error (msg : String)
  | started
deriving DecidableEq, Repr

/-- Result of a `CopyController.start` call: the controller state after the
call, the signals the call emitted, and whether a worker/thread pair was
created (a job admitted). -/
structure StartOutcome where
  state : ControllerState
  events : List CtrlEvent
  jobCreated : Bool
deriving DecidableEq, Repr

/-- Embedding of `CopyController.start` (src/main.py lines 202-222): reject
with an error signal if `_running` is set or the file list is empty;
otherwise create the worker, set `_running`, and emit `started`. -/
def CopyController.start (st : ControllerState) (files : List String) :
    StartOutcome :=
  if st.running then ⟨st, [CtrlEvent.error "Copy already running"], false⟩
  else if files.isEmpty then ⟨st, [CtrlEvent.error "No files to copy"], false⟩
  else ⟨⟨true⟩, [CtrlEvent.started], true⟩

/-- Whether a controller event is an error signal. -/
def CtrlEvent.isError : CtrlEvent → Bool
  | CtrlEvent.error _ => true
  | CtrlEvent.started => false

/-- Events a `CopyWorker` emits: `progress(idx, name, total)`, `error(msg)`
and the terminal `finished` signal. -/
inductive Event where
  | progress (idx : Nat) (name : String) (total : Nat)
  | error (msg : String)
  | finished
deriving DecidableEq, Repr

/-- Whether a worker event is a progress signal. -/
def Event.isProgress : Event → Bool
  | Event.progress _ _ _ => true
  | _ => false

/-- The index carried by a progress event (0 for the other events). -/
def Event.progIdx : Event → Nat
  | Event.progress i _ _ => i
  | _ => 0

/-- Per-file filesystem environment for one iteration of the worker loop,
capturing the checks `CopyWorker.run` makes on that file:
`os.path.isfile(src_path)`, `os.access(src_path, os.R_OK)`,
`os.access(parent, os.W_OK)` (after the `makedirs` call), and whether the
`shutil.copy2` step raises an unforeseen exception (`copyFault = some e`
carries the exception text `e`). -/
structure FileEnv where
  srcIsFile : Bool
  srcReadable : Bool
  parentWritable : Bool
  copyFault : Option String
deriving DecidableEq, Repr

/-- Embedding of `os.path.join(folder, name)` for the flat names the
snapshotter produces. -/
def pathJoin (folder name : String) : String :=
  folder ++ "/" ++ name

/-- Whether the cooperative stop flag reads as cleared (`self._running`
false) at the top of the iteration with 0-based index `i`.  `stopAt = some s`
models a `stop()` call whose effect is first visible at iteration `s`;
`stopAt = none` models a job that is never stopped. -/
def stopped (stopAt : Option Nat) (i : Nat) : Bool :=
  match stopAt with
  | none => false
  | some s => decide (s ≤ i)

/-- How one per-file iteration of `CopyWorker.run` ends: a successful copy
(progress emitted), an error-skip (`continue`), or an exception escaping to
the `except` handler. -/
inductive StepKind where
  | ok
  | skip
  | fault
deriving DecidableEq, Repr

/-- One per-file iteration body of `CopyWorker.run` (src/main.py lines
163-178), after the stop check: the events it emits and how it ends.  For
the flat file names of this application `os.path.dirname(dst_path)` is the
destination folder itself, so the unwritable-parent message names `dst`.
A `copyFault` models the `shutil.copy2` call raising: the error event it
produces is the one the `except` handler emits (src/main.py lines 179-181),
with the traceback detail folded into the exception text. -/
def copyStep (src dst name : String) (e : FileEnv) (idx total : Nat) :
    List Event × StepKind :=
  if e.srcIsFile = false then
    ([Event.error ("Source file not found: " ++ pathJoin src name)], StepKind.skip)
  else if e.srcReadable = false then
    ([Event.error ("No read access to source file: " ++ pathJoin src name)], StepKind.skip)
  else if e.parentWritable = false then
    ([Event.error ("No write access to destination folder: " ++ dst)], StepKind.skip)
  else
    match e.copyFault with
    | some msg => ([Event.error ("Unhandled worker error: " ++ msg)], StepKind.fault)
    | none => ([Event.progress (idx + 1) name total], StepKind.ok)

/-- The `for idx, name in enumerate(self.files)` loop of `CopyWorker.run`
(src/main.py lines 160-178) together with the surrounding `try/except`
(lines 159-181), over the remaining file list with `idx` the absolute
0-based index of its head.  Returns the events emitted inside the loop (the
`except` handler's error event included) and the 0-based indices of the
files actually copied. -/
def copyLoop (src dst : String) (total : Nat) (env : Nat → FileEnv)
    (stopAt : Option Nat) : List String → Nat → List Event × List Nat
  | [], _ => ([], [])
  | name :: rest, idx =>
    if stopped stopAt idx then ([], [])
    else
      let step := copyStep src dst name (env idx) idx total
      match step.2 with
      | StepKind.fault => (step.1, [])
      | StepKind.skip =>
        let tail := copyLoop src dst total env stopAt rest (idx + 1)
        (step.1 ++ tail.1, tail.2)
      | StepKind.ok =>
        let tail := copyLoop src dst total env stopAt rest (idx + 1)
        (step.1 ++ tail.1, idx :: tail.2)

/-- Embedding of `CopyWorker.run` (src/main.py lines 156-183): the full
event sequence one job emits.  The `finally` clause appends the terminal
`finished` signal after however the loop ended. -/
def CopyWorker.run (src dst : String) (files : List String)
    (env : Nat → FileEnv) (stopAt : Option Nat) : List Event :=
  (copyLoop src dst files.length env stopAt files 0).1 ++ [Event.finished]

/-- The 0-based indices of the files a job actually copies. -/
def copiedIndices (src dst : String) (files : List String)
    (env : Nat → FileEnv) (stopAt : Option Nat) : List Nat :=
  (copyLoop src dst files.length env stopAt files 0).2

/-- A file environment under which the iteration copies the file: the three
explicit checks pass and the copy call does not raise. -/
def stepOk (e : FileEnv) : Bool :=
  e.srcIsFile && e.srcReadable && e.parentWritable && e.copyFault.isNone

/-- A file environment under which the iteration raises out of the loop: the
three explicit checks pass but the copy call raises. -/
def stepFaults (e : FileEnv) : Bool :=
  e.srcIsFile && e.srcReadable && e.parentWritable && e.copyFault.isSome

/-- Concrete filesystem used to exercise the snapshotter's failure cases:
path `f` exists but is a plain file, path `d` is a directory that is not
readable, and every other non-empty path does not exist. -/
def fsA : FS where
  pathExists := fun p => decide (p = "d" ∨ p = "f")
  isdir := fun p => decide (p = "d")
  readable := fun _ => false
  listdir := fun _ => []
  isfile := fun _ _ => false

/-- Concrete filesystem used to exercise the snapshotter's success case:
path `d` is a readable directory whose listing holds one regular file
`a.txt` and one subdirectory `sub`. -/
def fsB : FS where
  pathExists := fun p => decide (p = "d")
  isdir := fun p => decide (p = "d")
  readable := fun _ => true
  listdir := fun _ => ["a.txt", "sub"]
  isfile := fun _ n => decide (n = "a.txt")

theorem copyStep_kind_ok (src dst name : String) (e : FileEnv) (idx total : Nat) :
    (copyStep src dst name e idx total).2 = StepKind.ok ↔ stepOk e = true := by
  rcases e with ⟨si, sr, pw, cf⟩
  cases si <;> cases sr <;> cases pw <;> cases cf <;>
    simp [copyStep, stepOk]

theorem copyStep_kind_fault (src dst name : String) (e : FileEnv) (idx total : Nat) :
    (copyStep src dst name e idx total).2 = StepKind.fault ↔ stepFaults e = true := by
  rcases e with ⟨si, sr, pw, cf⟩
  cases si <;> cases sr <;> cases pw <;> cases cf <;>
    simp [copyStep, stepFaults]

theorem copyStep_fst_ok (src dst name : String) (e : FileEnv) (idx total : Nat)
    (h : (copyStep src dst name e idx total).2 = StepKind.ok) :
    (copyStep src dst name e idx total).1 = [Event.progress (idx + 1) name total] := by
  rcases e with ⟨si, sr, pw, cf⟩
  cases si <;> cases sr <;> cases pw <;> cases cf <;>
    simp_all [copyStep]

theorem finished_not_mem_copyStep (src dst name : String) (e : FileEnv)
    (idx total : Nat) : Event.finished ∉ (copyStep src dst name e idx total).1 := by
  rcases e with ⟨si, sr, pw, cf⟩
  cases si <;> cases sr <;> cases pw <;> cases cf <;> simp [copyStep]

theorem finished_not_mem_copyLoop (src dst : String) (total : Nat)
    (env : Nat → FileEnv) (stopAt : Option Nat) :
    ∀ (rest : List String) (idx : Nat),
      Event.finished ∉ (copyLoop src dst total env stopAt rest idx).1 := by
  intro rest
  induction rest with
  | nil => intro idx; simp [copyLoop]
  | cons name rest ih =>
    intro idx
    cases hs : stopped stopAt idx with
    | true => simp [copyLoop, hs]
    | false =>
      rcases hk : (copyStep src dst name (env idx) idx total).2 with _ | _ | _ <;>
        simp only [copyLoop, hs, hk, Bool.false_eq_true, if_false, List.mem_append] <;>
        intro hmem
      · rcases hmem with hmem | hmem
        · exact finished_not_mem_copyStep src dst name (env idx) idx total hmem
        · exact ih (idx + 1) hmem
      · rcases hmem with hmem | hmem
        · exact finished_not_mem_copyStep src dst name (env idx) idx total hmem
        · exact ih (idx + 1) hmem
      · exact finished_not_mem_copyStep src dst name (env idx) idx total hmem

theorem copyLoop_copied_bounds (src dst : String) (total : Nat)
    (env : Nat → FileEnv) (stopAt : Option Nat) :
    ∀ (rest : List String) (idx : Nat),
      ∀ i ∈ (copyLoop src dst total env stopAt rest idx).2,
        idx ≤ i ∧ i < idx + rest.length := by
  intro rest
  induction rest with
  | nil => intro idx i hi; simp [copyLoop] at hi
  | cons name rest ih =>
    intro idx i hi
    cases hs : stopped stopAt idx with
    | true => simp [copyLoop, hs] at hi
    | false =>
      rcases hk : (copyStep src dst name (env idx) idx total).2 with _ | _ | _ <;>
        simp only [copyLoop, hs, hk, Bool.false_eq_true, if_false] at hi
      · rcases List.mem_cons.mp hi with hi | hi
        · subst hi
          exact ⟨Nat.le_refl _, by simp⟩
        · rcases ih (idx + 1) i hi with ⟨h1, h2⟩
          refine ⟨Nat.le_of_succ_le h1, ?_⟩
          simpa [Nat.add_comm, Nat.add_left_comm, Nat.add_assoc] using h2
      · rcases ih (idx + 1) i hi with ⟨h1, h2⟩
        refine ⟨Nat.le_of_succ_le h1, ?_⟩
        simpa [Nat.add_comm, Nat.add_left_comm, Nat.add_assoc] using h2
      · simp at hi

theorem copyLoop_copied_pairwise (src dst : String) (total : Nat)
    (env : Nat → FileEnv) (stopAt : Option Nat) :
    ∀ (rest : List String) (idx : Nat),
      ((copyLoop src dst total env stopAt rest idx).2).Pairwise (· < ·) := by
  intro rest
  induction rest with
  | nil => intro idx; simp [copyLoop]
  | cons name rest ih =>
    intro idx
    cases hs : stopped stopAt idx with
    | true => simp [copyLoop, hs]
    | false =>
      rcases hk : (copyStep src dst name (env idx) idx total).2 with _ | _ | _ <;>
        simp only [copyLoop, hs, hk, Bool.false_eq_true, if_false]
      · refine List.pairwise_cons.mpr ⟨?_, ih (idx + 1)⟩
        intro i hi
        exact Nat.lt_of_succ_le
          (copyLoop_copied_bounds src dst total env stopAt rest (idx + 1) i hi).1
      · exact ih (idx + 1)
      · simp

theorem copyStep_filter_progress (src dst name : String) (e : FileEnv)
    (idx total : Nat) :
    ((copyStep src dst name e idx total).1).filter Event.isProgress =
      (if (copyStep src dst name e idx total).2 = StepKind.ok
       then [Event.progress (idx + 1) name total] else []) := by
  rcases e with ⟨si, sr, pw, cf⟩
  cases si <;> cases sr <;> cases pw <;> cases cf <;>
    simp [copyStep, Event.isProgress]

theorem copyLoop_filter_progress (src dst : String) (total : Nat)
    (env : Nat → FileEnv) (stopAt : Option Nat) :
    ∀ (rest : List String) (idx : Nat),
      ((copyLoop src dst total env stopAt rest idx).1).filter Event.isProgress =
        ((copyLoop src dst total env stopAt rest idx).2).map
          (fun i => Event.progress (i + 1) (rest.getD (i - idx) "") total) := by
  intro rest
  induction rest with
  | nil => intro idx; simp [copyLoop]
  | cons name rest ih =>
    intro idx
    have hshift : ∀ i, idx + 1 ≤ i →
        (name :: rest).getD (i - idx) "" = rest.getD (i - (idx + 1)) "" := by
      intro i hle
      have h1 : i - idx = (i - (idx + 1)) + 1 := by omega
      rw [h1, List.getD_cons_succ]
    cases hs : stopped stopAt idx with
    | true => simp [copyLoop, hs]
    | false =>
      rcases hk : (copyStep src dst name (env idx) idx total).2 with _ | _ | _ <;>
        simp only [copyLoop, hs, hk, Bool.false_eq_true, if_false, List.filter_append]
      · rw [copyStep_fst_ok src dst name (env idx) idx total hk, ih (idx + 1)]
        have hf : List.filter Event.isProgress [Event.progress (idx + 1) name total] =
            [Event.progress (idx + 1) name total] := by simp [Event.isProgress]
        rw [hf]
        simp only [List.map_cons, Nat.sub_self, List.getD_cons_zero, List.singleton_append]
        congr 1
        refine List.map_eq_map_iff.mpr ?_
        intro i hi
        rw [hshift i (copyLoop_copied_bounds src dst total env stopAt rest (idx + 1) i hi).1]
      · have hstep := copyStep_filter_progress src dst name (env idx) idx total
        rw [hk, if_neg (by decide)] at hstep
        rw [hstep, ih (idx + 1), List.nil_append]
        refine List.map_eq_map_iff.mpr ?_
        intro i hi
        rw [hshift i (copyLoop_copied_bounds src dst total env stopAt rest (idx + 1) i hi).1]
      · have hstep := copyStep_filter_progress src dst name (env idx) idx total
        rw [hk, if_neg (by decide)] at hstep
        simp [hstep]

theorem copyLoop_stop_copied (src dst : String) (total : Nat)
    (env : Nat → FileEnv) (k : Nat) :
    ∀ (rest : List String) (idx : Nat),
      (copyLoop src dst total env (some k) rest idx).2 =
        ((copyLoop src dst total env none rest idx).2).filter
          (fun i => decide (i < k)) := by
  intro rest
  induction rest with
  | nil => intro idx; simp [copyLoop]
  | cons name rest ih =>
    intro idx
    by_cases hks : k ≤ idx
    · have hs : stopped (some k) idx = true := by simp [stopped, hks]
      have hL : copyLoop src dst total env (some k) (name :: rest) idx = ([], []) := by
        simp [copyLoop, hs]
      rw [hL]
      symm
      refine List.filter_eq_nil_iff.mpr ?_
      intro a ha
      have hb := (copyLoop_copied_bounds src dst total env none (name :: rest) idx a ha).1
      simp only [decide_eq_true_eq]
      omega
    · have hs : stopped (some k) idx = false := by
        simp only [stopped, decide_eq_false_iff_not]
        omega
      have hs0 : stopped none idx = false := rfl
      have hlt : idx < k := by omega
      rcases hk2 : (copyStep src dst name (env idx) idx total).2 with _ | _ | _ <;>
        simp only [copyLoop, hs, hs0, Bool.false_eq_true, if_false, hk2]
      · simp [List.filter_cons, hlt, ih (idx + 1)]
      · exact ih (idx + 1)
      · simp

theorem copyLoop_append (src dst : String) (total : Nat) (env : Nat → FileEnv)
    (stopAt : Option Nat) :
    ∀ (l1 l2 : List String) (idx : Nat),
      (∀ j < l1.length,
        stopped stopAt (idx + j) = false ∧ stepFaults (env (idx + j)) = false) →
      copyLoop src dst total env stopAt (l1 ++ l2) idx =
        ((copyLoop src dst total env stopAt l1 idx).1 ++
           (copyLoop src dst total env stopAt l2 (idx + l1.length)).1,
         (copyLoop src dst total env stopAt l1 idx).2 ++
           (copyLoop src dst total env stopAt l2 (idx + l1.length)).2) := by
  intro l1
  induction l1 with
  | nil => intro l2 idx h; simp [copyLoop]
  | cons name l1 ih =>
    intro l2 idx h
    have h0 := h 0 (by simp)
    rw [Nat.add_zero] at h0
    have hs : stopped stopAt idx = false := h0.1
    have hnf : stepFaults (env idx) = false := h0.2
    have htail := ih l2 (idx + 1) (fun j hj => by
      have harith : idx + 1 + j = idx + (j + 1) := by omega
      rw [harith]
      exact h (j + 1) (by simp only [List.length_cons]; omega))
    have harith2 : idx + 1 + l1.length = idx + (name :: l1).length := by
      simp only [List.length_cons]; omega
    rw [harith2] at htail
    rcases hk2 : (copyStep src dst name (env idx) idx total).2 with _ | _ | _
    · simp only [List.cons_append, copyLoop, hs, Bool.false_eq_true, if_false, hk2,
        List.append_eq]
      rw [htail]
      simp [List.append_assoc]
    · simp only [List.cons_append, copyLoop, hs, Bool.false_eq_true, if_false, hk2,
        List.append_eq]
      rw [htail]
      simp [List.append_assoc]
    · exfalso
      rw [copyStep_kind_fault] at hk2
      rw [hnf] at hk2
      exact Bool.false_ne_true hk2

theorem copyStep_kind_skip_of_not (src dst name : String) (e : FileEnv)
    (idx total : Nat) (hok : stepOk e = false) (hf : stepFaults e = false) :
    (copyStep src dst name e idx total).2 = StepKind.skip := by
  rcases e with ⟨si, sr, pw, cf⟩
  cases si <;> cases sr <;> cases pw <;> cases cf <;>
    simp_all [copyStep, stepOk, stepFaults]

theorem copyLoop_copied_no_fault (src dst : String) (total : Nat)
    (env : Nat → FileEnv) (hnf : ∀ j, stepFaults (env j) = false) :
    ∀ (rest : List String) (idx : Nat),
      (copyLoop src dst total env none rest idx).2 =
        (List.range' idx rest.length).filter (fun j => stepOk (env j)) := by
  intro rest
  induction rest with
  | nil => intro idx; simp [copyLoop]
  | cons name rest ih =>
    intro idx
    have hs : stopped none idx = false := rfl
    rcases hk2 : (copyStep src dst name (env idx) idx total).2 with _ | _ | _ <;>
      simp only [copyLoop, hs, Bool.false_eq_true, if_false, hk2]
    · have hok : stepOk (env idx) = true :=
        (copyStep_kind_ok src dst name (env idx) idx total).mp hk2
      simp [List.range', List.filter_cons, hok, ih (idx + 1)]
    · have hok : stepOk (env idx) = false := by
        cases hso : stepOk (env idx)
        · rfl
        · exact absurd ((copyStep_kind_ok src dst name (env idx) idx total).mpr hso)
            (by simp [hk2])
      simp [List.range', List.filter_cons, hok, ih (idx + 1)]
    · exact absurd ((copyStep_kind_fault src dst name (env idx) idx total).mp hk2)
        (by simp [hnf idx])

theorem copyLoop_mem_step_events (src dst : String) (total : Nat)
    (env : Nat → FileEnv) (hnf : ∀ j, stepFaults (env j) = false) :
    ∀ (rest : List String) (idx j : Nat), j < rest.length →
      ∀ ev ∈ (copyStep src dst (rest.getD j "") (env (idx + j)) (idx + j) total).1,
        ev ∈ (copyLoop src dst total env none rest idx).1 := by
  intro rest
  induction rest with
  | nil => intro idx j hj; simp at hj
  | cons name rest ih =>
    intro idx j hj ev hev
    have hs : stopped none idx = false := rfl
    have hkind : (copyStep src dst name (env idx) idx total).2 ≠ StepKind.fault := by
      intro hc
      rw [copyStep_kind_fault] at hc
      rw [hnf idx] at hc
      exact Bool.false_ne_true hc
    cases j with
    | zero =>
      rw [Nat.add_zero] at hev
      simp only [List.getD_cons_zero] at hev
      rcases hk2 : (copyStep src dst name (env idx) idx total).2 with _ | _ | _ <;>
        simp only [copyLoop, hs, Bool.false_eq_true, if_false, hk2, List.mem_append]
      · exact Or.inl hev
      · exact Or.inl hev
      · exact absurd hk2 hkind
    | succ j =>
      have hj2 : j < rest.length := by
        simp only [List.length_cons] at hj
        omega
      have harith : idx + (j + 1) = (idx + 1) + j := by omega
      rw [harith] at hev
      simp only [List.getD_cons_succ] at hev
      have hmem := ih (idx + 1) j hj2 ev hev
      rcases hk2 : (copyStep src dst name (env idx) idx total).2 with _ | _ | _ <;>
        simp only [copyLoop, hs, Bool.false_eq_true, if_false, hk2, List.mem_append]
      · exact Or.inr hmem
      · exact Or.inr hmem
      · exact absurd hk2 hkind

theorem run_progress_characterization (src dst : String) (files : List String)
    (env : Nat → FileEnv) (stopAt : Option Nat) :
    (CopyWorker.run src dst files env stopAt).filter Event.isProgress =
      (copiedIndices src dst files env stopAt).map
        (fun i => Event.progress (i + 1) (files.getD i "") files.length) := by
  unfold CopyWorker.run copiedIndices
  rw [List.filter_append]
  have hfin : List.filter Event.isProgress [Event.finished] = [] := by
    simp [Event.isProgress]
  rw [hfin, List.append_nil]
  have h := copyLoop_filter_progress src dst files.length env stopAt files 0
  simpa using h

/-- Claim C6: a name is in the computed missing set exactly when it is in
the source table's set of names and not in the destination table's set; the
missing set is the exact set difference source − destination. -/
theorem c6_missing_is_set_difference (srcRows dstRows : List String)
    (a : String) :
    a ∈ computeMissing srcRows dstRows ↔
      a ∈ get_table_items srcRows ∧ a ∉ get_table_items dstRows := by
  simp [computeMissing, Finset.mem_sdiff]

/-- Claim C5: a start request is rejected without side effects — same
controller state, no worker created, exactly one error signal and no
started signal — when a job is already running or the file list is empty;
otherwise the job is admitted, the running flag is set and the started
signal fires. -/
theorem c5_start_admission (st : ControllerState) (files : List String) :
    (st.running = true →
      (CopyController.start st files).state = st ∧
      (CopyController.start st files).jobCreated = false ∧
      (CopyController.start st files).events =
        [CtrlEvent.error "Copy already running"]) ∧
    (st.running = false → files = [] →
      (CopyController.start st files).state = st ∧
      (CopyController.start st files).jobCreated = false ∧
      (CopyController.start st files).events =
        [CtrlEvent.error "No files to copy"]) ∧
    (st.running = false → files ≠ [] →
      (CopyController.start st files).state.running = true ∧
      (CopyController.start st files).jobCreated = true ∧
      (CopyController.start st files).events = [CtrlEvent.started]) := by
  refine ⟨?_, ?_, ?_⟩
  · intro h
    simp [CopyController.start, h]
  · intro h1 h2
    subst h2
    simp [CopyController.start, h1]
  · intro h1 h2
    have h3 : files.isEmpty = false := by
      simpa [List.isEmpty_iff] using h2
    simp [CopyController.start, h1, h3]

theorem c5_start_admission_witness :
    (ControllerState.mk true).running = true ∧
    (CopyController.start ⟨true⟩ ["a.txt"]).state = ⟨true⟩ ∧
    (CopyController.start ⟨true⟩ ["a.txt"]).jobCreated = false ∧
    (CopyController.start ⟨true⟩ ["a.txt"]).events =
      [CtrlEvent.error "Copy already running"] ∧
    (ControllerState.mk false).running = false ∧
    (CopyController.start ⟨false⟩ []).state = ⟨false⟩ ∧
    (CopyController.start ⟨false⟩ []).jobCreated = false ∧
    (CopyController.start ⟨false⟩ []).events =
      [CtrlEvent.error "No files to copy"] ∧
    (["a.txt"] : List String) ≠ [] ∧
    (CopyController.start ⟨false⟩ ["a.txt"]).state.running = true ∧
    (CopyController.start ⟨false⟩ ["a.txt"]).jobCreated = true ∧
    (CopyController.start ⟨false⟩ ["a.txt"]).events = [CtrlEvent.started] := by
  have h1 := (c5_start_admission ⟨true⟩ ["a.txt"]).1 rfl
  have h2 := (c5_start_admission ⟨false⟩ []).2.1 rfl rfl
  have h3 := (c5_start_admission ⟨false⟩ ["a.txt"]).2.2 rfl (by decide)
  exact ⟨rfl, h1.1, h1.2.1, h1.2.2, rfl, h2.1, h2.2.1, h2.2.2, by decide,
    h3.1, h3.2.1, h3.2.2⟩

/-- Claim C7: the snapshotter is total — for every input it returns a
result rather than raising — and its outcome follows the four-way case
analysis: empty path gives the empty listing silently; a non-existent path
reports folder-not-found; an existing non-directory reports not-a-directory;
an unreadable directory reports permission denied (the hard-failure report);
in each case the returned listing, hence the FileSet, is empty. -/
theorem c7_snapshot_case_analysis (fs : FS) (folder : String) :
    (folder = "" → populate_table fs folder = ([], Report.silent)) ∧
    (folder ≠ "" → fs.pathExists folder = false →
      populate_table fs folder = ([], Report.warnNotFound)) ∧
    (folder ≠ "" → fs.pathExists folder = true → fs.isdir folder = false →
      populate_table fs folder = ([], Report.warnNotDir)) ∧
    (folder ≠ "" → fs.pathExists folder = true → fs.isdir folder = true →
      fs.readable folder = false →
      populate_table fs folder = ([], Report.critPermission)) := by
  refine ⟨?_, ?_, ?_, ?_⟩
  · intro h
    simp [populate_table, h]
  · intro h1 h2
    simp [populate_table, h1, h2]
  · intro h1 h2 h3
    simp [populate_table, h1, h2, h3]
  · intro h1 h2 h3 h4
    simp [populate_table, h1, h2, h3, h4]

theorem c7_snapshot_case_analysis_witness :
    ("" : String) = "" ∧
    populate_table fsA "" = ([], Report.silent) ∧
    ("nope" : String) ≠ "" ∧ fsA.pathExists "nope" = false ∧
    populate_table fsA "nope" = ([], Report.warnNotFound) ∧
    ("f" : String) ≠ "" ∧ fsA.pathExists "f" = true ∧ fsA.isdir "f" = false ∧
    populate_table fsA "f" = ([], Report.warnNotDir) ∧
    ("d" : String) ≠ "" ∧ fsA.pathExists "d" = true ∧ fsA.isdir "d" = true ∧
    fsA.readable "d" = false ∧
    populate_table fsA "d" = ([], Report.critPermission) := by
  refine ⟨rfl, (c7_snapshot_case_analysis fsA "").1 rfl,
    by decide, by decide,
    (c7_snapshot_case_analysis fsA "nope").2.1 (by decide) (by decide),
    by decide, by decide, by decide,
    (c7_snapshot_case_analysis fsA "f").2.2.1 (by decide) (by decide) (by decide),
    by decide, by decide, by decide, rfl,
    (c7_snapshot_case_analysis fsA "d").2.2.2 (by decide) (by decide) (by decide) rfl⟩

/-- Claim C8: on a readable directory the snapshot's FileSet is exactly the
directory's directly-contained regular files — a name is kept precisely when
it is a listing entry that is a regular file, so subdirectories are excluded
and nothing outside the single listing (no recursion) can appear — and the
traversed row list is sorted alphabetically. -/
theorem c8_snapshot_regular_files_sorted (fs : FS) (folder : String)
    (h1 : folder ≠ "") (h2 : fs.pathExists folder = true)
    (h3 : fs.isdir folder = true) (h4 : fs.readable folder = true) :
    (populate_table fs folder).2 = Report.silent ∧
    (∀ name, name ∈ (populate_table fs folder).1 ↔
      name ∈ fs.listdir folder ∧ fs.isfile folder name = true) ∧
    List.Sorted (· ≤ ·) (populate_table fs folder).1 ∧
    snapshotSet fs folder =
      ((fs.listdir folder).filter (fun f => fs.isfile folder f)).toFinset := by
  have hpt : populate_table fs folder =
      (((fs.listdir folder).mergeSort).filter (fun f => fs.isfile folder f),
        Report.silent) := by
    simp [populate_table, h1, h2, h3, h4]
  refine ⟨by rw [hpt], ?_, ?_, ?_⟩
  · intro name
    rw [hpt]
    simp [List.mem_filter, List.mem_mergeSort]
  · rw [hpt]
    exact List.Pairwise.filter _ (List.sorted_mergeSort' _)
  · rw [snapshotSet, hpt]
    ext a
    simp [List.mem_filter, List.mem_mergeSort]

theorem c8_snapshot_regular_files_sorted_witness :
    ("d" : String) ≠ "" ∧ fsB.pathExists "d" = true ∧ fsB.isdir "d" = true ∧
    fsB.readable "d" = true ∧
    (populate_table fsB "d").2 = Report.silent ∧
    ("a.txt" ∈ (populate_table fsB "d").1 ↔
      "a.txt" ∈ fsB.listdir "d" ∧ fsB.isfile "d" "a.txt" = true) ∧
    ("sub" ∈ (populate_table fsB "d").1 ↔
      "sub" ∈ fsB.listdir "d" ∧ fsB.isfile "d" "sub" = true) ∧
    List.Sorted (· ≤ ·) (populate_table fsB "d").1 ∧
    snapshotSet fsB "d" =
      ((fsB.listdir "d").filter (fun f => fsB.isfile "d" f)).toFinset := by
  have h := c8_snapshot_regular_files_sorted fsB "d" (by decide) (by decide)
    (by decide) rfl
  exact ⟨by decide, by decide, by decide, rfl, h.1, h.2.1 "a.txt", h.2.1 "sub",
    h.2.2.1, h.2.2.2⟩

/-- Claim C3: every job emits the terminal finished signal exactly once, and
it is the last event of the job — no progress or error event of the job
follows it — whatever the file list, per-file environments, or stop time. -/
theorem c3_exactly_one_finished_and_last (src dst : String)
    (files : List String) (env : Nat → FileEnv) (stopAt : Option Nat) :
    (CopyWorker.run src dst files env stopAt).count Event.finished = 1 ∧
    (CopyWorker.run src dst files env stopAt).getLast? = some Event.finished := by
  constructor
  · unfold CopyWorker.run
    rw [List.count_append]
    have h0 : (copyLoop src dst files.length env stopAt files 0).1.count
        Event.finished = 0 :=
      List.count_eq_zero.mpr
        (finished_not_mem_copyLoop src dst files.length env stopAt files 0)
    simp [h0]
  · unfold CopyWorker.run
    exact List.getLast?_concat _

/-- Claim C1 is false on the code: when a file is skipped by a per-file
error the `continue` statement bypasses `self.progress.emit`, so no
progress event is emitted for that position.  With a single-file list whose
source file is missing, the job emits only the error and the terminal
event: no progress event carries index 1, against the claim that every one
of the n positions yields a progress event. -/
theorem c1_counterexample :
    CopyWorker.run "src" "dst" ["c.txt"]
        (fun _ => ⟨false, true, true, none⟩) none =
      [Event.error "Source file not found: src/c.txt", Event.finished] ∧
    List.countP Event.isProgress
      (CopyWorker.run "src" "dst" ["c.txt"]
        (fun _ => ⟨false, true, true, none⟩) none) = 0 :=
  ⟨rfl, by decide⟩

/-- Claim C1 (amended): a CopyProgressEvent is emitted exactly for the
files whose copy succeeds — in list order, carrying the 1-based position of
the file in the list and the total count — while skipped files contribute
no progress event. -/
theorem c1_progress_exactly_for_copied (src dst : String)
    (files : List String) (env : Nat → FileEnv) (stopAt : Option Nat) :
    (CopyWorker.run src dst files env stopAt).filter Event.isProgress =
      (copiedIndices src dst files env stopAt).map
        (fun i => Event.progress (i + 1) (files.getD i "") files.length) :=
  run_progress_characterization src dst files env stopAt

/-- Claim C2 is false on the code: the `try` block wraps the whole loop, so
an unforeseen failure raised during one file's copy step aborts the loop
rather than letting the job continue.  With a fault at the first of two
files, the second file is neither copied nor produces any event, while the
claim demands the job continue with the remaining files. -/
theorem c2_counterexample :
    CopyWorker.run "src" "dst" ["a.txt", "b.txt"]
        (fun i => if i = 0 then ⟨true, true, true, some "boom"⟩
          else ⟨true, true, true, none⟩) none =
      [Event.error "Unhandled worker error: boom", Event.finished] ∧
    copiedIndices "src" "dst" ["a.txt", "b.txt"]
        (fun i => if i = 0 then ⟨true, true, true, some "boom"⟩
          else ⟨true, true, true, none⟩) none = [] :=
  ⟨rfl, rfl⟩

/-- Claim C2 (amended): if an unforeseen failure is raised during the copy
step of the file at position k (the explicit per-file checks having
passed), the pipeline emits a CopyErrorEvent carrying a diagnostic
description of the fault, the loop terminates — the remaining files of the
list are not processed and only files before position k are copied — and
the terminal finished event still fires as the job's last event. -/
theorem c2_fault_reported_loop_aborts_finished (src dst : String)
    (files : List String) (env : Nat → FileEnv) (k : Nat) (msg : String)
    (hk : k < files.length)
    (hpre : ∀ j < k, stepFaults (env j) = false)
    (hsi : (env k).srcIsFile = true) (hsr : (env k).srcReadable = true)
    (hpw : (env k).parentWritable = true)
    (hcf : (env k).copyFault = some msg) :
    CopyWorker.run src dst files env none =
      (copyLoop src dst files.length env none (files.take k) 0).1 ++
        [Event.error ("Unhandled worker error: " ++ msg), Event.finished] ∧
    ∀ i ∈ copiedIndices src dst files env none, i < k := by
  have htk : (files.take k).length = k := by
    rw [List.length_take]; omega
  have hsplit := copyLoop_append src dst files.length env none (files.take k)
    (files.drop k) 0 (by
      intro j hj
      rw [htk] at hj
      exact ⟨rfl, by rw [Nat.zero_add]; exact hpre j hj⟩)
  rw [List.take_append_drop, htk, Nat.zero_add] at hsplit
  have hstep : copyStep src dst files[k] (env k) k files.length =
      ([Event.error ("Unhandled worker error: " ++ msg)], StepKind.fault) := by
    simp [copyStep, hsi, hsr, hpw, hcf]
  have hdk : copyLoop src dst files.length env none (files.drop k) k =
      ([Event.error ("Unhandled worker error: " ++ msg)], []) := by
    rw [List.drop_eq_getElem_cons hk]
    have hs : stopped none k = false := rfl
    simp [copyLoop, hs, hstep]
  constructor
  · unfold CopyWorker.run
    rw [hsplit, hdk]
    simp [List.append_assoc]
  · intro i hi
    unfold copiedIndices at hi
    rw [hsplit, hdk] at hi
    simp only [List.append_nil] at hi
    have hb := copyLoop_copied_bounds src dst files.length env none
      (files.take k) 0 i hi
    rw [htk] at hb
    omega

theorem c2_fault_reported_loop_aborts_finished_witness :
    (0 < (["a.txt", "b.txt"] : List String).length) ∧
    ((if (0 : Nat) = 0 then (⟨true, true, true, some "boom"⟩ : FileEnv)
        else ⟨true, true, true, none⟩).copyFault = some "boom") ∧
    CopyWorker.run "src" "dst" ["a.txt", "b.txt"]
        (fun i => if i = 0 then ⟨true, true, true, some "boom"⟩
          else ⟨true, true, true, none⟩) none =
      (copyLoop "src" "dst" (["a.txt", "b.txt"] : List String).length
          (fun i => if i = 0 then ⟨true, true, true, some "boom"⟩
            else ⟨true, true, true, none⟩) none
          ((["a.txt", "b.txt"] : List String).take 0) 0).1 ++
        [Event.error ("Unhandled worker error: " ++ "boom"), Event.finished] := by
  refine ⟨by decide, rfl, ?_⟩
  exact (c2_fault_reported_loop_aborts_finished "src" "dst" ["a.txt", "b.txt"]
    (fun i => if i = 0 then ⟨true, true, true, some "boom"⟩
      else ⟨true, true, true, none⟩) 0 "boom" (by decide)
    (fun j hj => absurd hj (Nat.not_lt_zero j)) rfl rfl rfl rfl).1

/-- Claim C4: if the stop flag is first observed cleared at the top of
iteration k, the copied files are exactly the copied files of the unstopped
run restricted to positions before k (already-copied files stay copied, no
rollback), so at most k files are copied and no file at or after position k
is copied — and the terminal finished event still fires as the last event. -/
theorem c4_stop_cooperative (src dst : String) (files : List String)
    (env : Nat → FileEnv) (k : Nat) :
    copiedIndices src dst files env (some k) =
      (copiedIndices src dst files env none).filter (fun i => decide (i < k)) ∧
    (∀ i ∈ copiedIndices src dst files env (some k), i < k) ∧
    (copiedIndices src dst files env (some k)).length ≤ k ∧
    (CopyWorker.run src dst files env (some k)).getLast? =
      some Event.finished := by
  have heq := copyLoop_stop_copied src dst files.length env k files 0
  have hmem : ∀ i ∈ copiedIndices src dst files env (some k), i < k := by
    intro i hi
    unfold copiedIndices at hi
    rw [heq] at hi
    have h2 := List.mem_filter.mp hi
    simpa using h2.2
  refine ⟨heq, hmem, ?_, ?_⟩
  · have hpw := copyLoop_copied_pairwise src dst files.length env (some k) files 0
    have hnd : (copiedIndices src dst files env (some k)).Nodup :=
      hpw.imp (fun h => Nat.ne_of_lt h)
    have hcard : (copiedIndices src dst files env (some k)).toFinset.card =
        (copiedIndices src dst files env (some k)).length :=
      List.toFinset_card_of_nodup hnd
    have hsub : (copiedIndices src dst files env (some k)).toFinset ⊆
        Finset.range k := by
      intro i hi
      rw [List.mem_toFinset] at hi
      exact Finset.mem_range.mpr (hmem i hi)
    calc (copiedIndices src dst files env (some k)).length
        = (copiedIndices src dst files env (some k)).toFinset.card := hcard.symm
      _ ≤ (Finset.range k).card := Finset.card_le_card hsub
      _ = k := Finset.card_range k
  · unfold CopyWorker.run
    exact List.getLast?_concat _

theorem c4_stop_cooperative_witness :
    copiedIndices "s" "d" ["a.txt", "b.txt"]
        (fun _ => ⟨true, true, true, none⟩) (some 1) =
      (copiedIndices "s" "d" ["a.txt", "b.txt"]
        (fun _ => ⟨true, true, true, none⟩) none).filter
          (fun i => decide (i < 1)) ∧
    (0 ∈ copiedIndices "s" "d" ["a.txt", "b.txt"]
      (fun _ => ⟨true, true, true, none⟩) (some 1)) ∧
    (0 < 1) ∧
    (copiedIndices "s" "d" ["a.txt", "b.txt"]
      (fun _ => ⟨true, true, true, none⟩) (some 1)).length ≤ 1 ∧
    (CopyWorker.run "s" "d" ["a.txt", "b.txt"]
      (fun _ => ⟨true, true, true, none⟩) (some 1)).getLast? =
        some Event.finished := by
  have h := c4_stop_cooperative "s" "d" ["a.txt", "b.txt"]
    (fun _ => ⟨true, true, true, none⟩) 1
  exact ⟨h.1, by decide, h.2.1 0 (by decide), h.2.2.1, h.2.2.2⟩

/-- Claim C9: in a job where no iteration raises, if the file at position i
has a missing or unreadable source at its turn, the pipeline emits the
matching CopyErrorEvent naming the condition and the file, does not copy
that file, and still processes every other position of the list normally —
a position is copied exactly when its own checks pass. -/
theorem c9_per_file_error_skips_and_continues (src dst : String)
    (files : List String) (env : Nat → FileEnv) (i : Nat)
    (hnf : ∀ j, stepFaults (env j) = false)
    (hi : i < files.length)
    (hbad : (env i).srcIsFile = false ∨
      ((env i).srcIsFile = true ∧ (env i).srcReadable = false)) :
    i ∉ copiedIndices src dst files env none ∧
    ((env i).srcIsFile = false →
      Event.error ("Source file not found: " ++ pathJoin src (files.getD i ""))
        ∈ CopyWorker.run src dst files env none) ∧
    ((env i).srcIsFile = true → (env i).srcReadable = false →
      Event.error ("No read access to source file: " ++
          pathJoin src (files.getD i ""))
        ∈ CopyWorker.run src dst files env none) ∧
    (∀ j < files.length,
      (j ∈ copiedIndices src dst files env none ↔ stepOk (env j) = true)) := by
  have hchar := copyLoop_copied_no_fault src dst files.length env hnf files 0
  have hmemc : ∀ j, j ∈ copiedIndices src dst files env none ↔
      (j < files.length ∧ stepOk (env j) = true) := by
    intro j
    unfold copiedIndices
    rw [hchar]
    simp only [List.mem_filter, List.mem_range']
    constructor
    · rintro ⟨⟨i2, hi2, rfl⟩, hok⟩
      exact ⟨by omega, hok⟩
    · rintro ⟨hlt, hok⟩
      exact ⟨⟨j, hlt, by omega⟩, hok⟩
  have hmemrun : ∀ ev, ev ∈ (copyStep src dst (files.getD i "") (env i) i
      files.length).1 → ev ∈ CopyWorker.run src dst files env none := by
    intro ev hev
    unfold CopyWorker.run
    rw [List.mem_append]
    left
    have h := copyLoop_mem_step_events src dst files.length env hnf files 0 i hi ev
    rw [Nat.zero_add] at h
    exact h hev
  refine ⟨?_, ?_, ?_, ?_⟩
  · intro hmem
    have h2 := (hmemc i).mp hmem
    have hok : stepOk (env i) = false := by
      rcases hbad with h | hpair
      · simp [stepOk, h]
      · simp [stepOk, hpair.1, hpair.2]
    rw [hok] at h2
    exact Bool.false_ne_true h2.2
  · intro hsi
    refine hmemrun _ ?_
    simp [copyStep, hsi]
  · intro hsi hsr
    refine hmemrun _ ?_
    simp [copyStep, hsi, hsr]
  · intro j hj
    rw [hmemc j]
    simp [hj]

theorem c9_per_file_error_skips_and_continues_witness :
    (0 < (["c.txt", "d.txt"] : List String).length) ∧
    ((if (0 : Nat) = 0 then (⟨false, true, true, none⟩ : FileEnv)
        else ⟨true, true, true, none⟩).srcIsFile = false) ∧
    (0 ∉ copiedIndices "src" "dst" ["c.txt", "d.txt"]
      (fun i => if i = 0 then ⟨false, true, true, none⟩
        else ⟨true, true, true, none⟩) none) ∧
    Event.error ("Source file not found: " ++ pathJoin "src"
        ((["c.txt", "d.txt"] : List String).getD 0 ""))
      ∈ CopyWorker.run "src" "dst" ["c.txt", "d.txt"]
        (fun i => if i = 0 then ⟨false, true, true, none⟩
          else ⟨true, true, true, none⟩) none ∧
    (1 ∈ copiedIndices "src" "dst" ["c.txt", "d.txt"]
        (fun i => if i = 0 then ⟨false, true, true, none⟩
          else ⟨true, true, true, none⟩) none ↔
      stepOk (if (1 : Nat) = 0 then ⟨false, true, true, none⟩
        else ⟨true, true, true, none⟩) = true) := by
  have h := c9_per_file_error_skips_and_continues "src" "dst"
    ["c.txt", "d.txt"]
    (fun i => if i = 0 then ⟨false, true, true, none⟩
      else ⟨true, true, true, none⟩) 0
    (by intro j; cases j <;> rfl) (by decide) (Or.inl rfl)
  exact ⟨by decide, rfl, h.1, h.2.1 rfl, h.2.2.2 1 (by decide)⟩

/-- Claim C10: every progress event of a job carries the constant total
equal to the job's file-list length and the file name at position
indexCompleted − 1 of the list, its index lies between 1 and the list
length, and the indices of the job's progress events are strictly
increasing in emission order. -/
theorem c10_progress_event_invariants (src dst : String)
    (files : List String) (env : Nat → FileEnv) (stopAt : Option Nat) :
    (∀ i name t,
      Event.progress i name t ∈ CopyWorker.run src dst files env stopAt →
      t = files.length ∧ name = files.getD (i - 1) "" ∧ 1 ≤ i ∧
        i ≤ files.length) ∧
    List.Pairwise (· < ·)
      (((CopyWorker.run src dst files env stopAt).filter
        Event.isProgress).map Event.progIdx) := by
  constructor
  · intro i name t hmem
    have hmf : Event.progress i name t ∈
        (CopyWorker.run src dst files env stopAt).filter Event.isProgress :=
      List.mem_filter.mpr ⟨hmem, rfl⟩
    rw [run_progress_characterization] at hmf
    obtain ⟨j, hj, heq⟩ := List.mem_map.mp hmf
    injection heq with e1 e2 e3
    subst e1
    subst e2
    subst e3
    have hb := copyLoop_copied_bounds src dst files.length env stopAt files 0
      j hj
    refine ⟨rfl, by simp, by omega, by omega⟩
  · rw [run_progress_characterization, List.map_map]
    have hpw := copyLoop_copied_pairwise src dst files.length env stopAt
      files 0
    refine List.Pairwise.map _ ?_ hpw
    intro a b hab
    simpa [Event.progIdx] using Nat.succ_lt_succ hab

theorem c10_progress_event_invariants_witness :
    (Event.progress 1 "a.txt" 1 ∈ CopyWorker.run "s" "d" ["a.txt"]
      (fun _ => ⟨true, true, true, none⟩) none) ∧
    (1 = (["a.txt"] : List String).length ∧
      "a.txt" = (["a.txt"] : List String).getD (1 - 1) "" ∧ 1 ≤ 1 ∧
      1 ≤ (["a.txt"] : List String).length) ∧
    List.Pairwise (· < ·)
      (((CopyWorker.run "s" "d" ["a.txt"]
        (fun _ => ⟨true, true, true, none⟩) none).filter
          Event.isProgress).map Event.progIdx) := by
  have h := c10_progress_event_invariants "s" "d" ["a.txt"]
    (fun _ => ⟨true, true, true, none⟩) none
  exact ⟨by decide, h.1 1 "a.txt" 1 (by decide), h.2⟩
